import Mathlib

/-!
Verification of the pyresto core (`pyresto/core.py`, `pyresto/relations.py`)
via a shallow embedding in Lean.

The embedding translates the source functions directly:

* `restCall` embeds `Model._rest_call`.  A server interaction is modelled as a
  chain of pages: the head page is the response for the requested URL and the
  continuation locator returned by `Model._continuator` is identified with the
  (nonempty) tail of the chain, so "a continuation locator exists" is exactly
  "another page follows in the trace".  The wire parser `Model._parser` is a
  parameter `parser : String -> List D`; an empty body parses to `none`
  (Python: `data = cls._parser(response_data) if response_data else None`).
* `MInst` embeds the state of a `Model` instance: its `__dict__` of public
  attributes, the `_fetched` flag, the `_changed` set, the raw `__pk_vals`
  slot (`none` models Python `None`), the `_auth` credential, the class-level
  primary-key field list `_pk` and, for `isinstance` checks, the inheritance
  chain of the concrete class encoded root-first as a list of tags.  `objId`
  stands for the CPython object identity used as the key of relation caches.
-/

namespace Pyresto

/-- Error values surfaced by the core: the pyresto exception classes raised in
`core.py` together with the Python builtin errors its code paths can raise. -/
inductive Err where
  | serverResponse (status : Nat)
  | attributeNotFound
  | typeError
  | valueError
  | keyError
  | recursionLimit
  | noResponse
  deriving DecidableEq, Repr

/-- Response of one HTTP round trip: status code and raw body text. -/
structure Page where
  status : Nat
  body : String
  deriving DecidableEq, Repr

/-- Success test of `_rest_call`: `200 <= response.status_code < 300`. -/
def isSuccess (status : Nat) : Bool :=
  decide (200 ≤ status ∧ status < 300)

/-- Embedding of `Model._rest_call` (core.py lines 221-279).  The response for
the requested URL is the page `p`; `rest` is the chain of pages reachable by
following continuation locators, so `_continuator` returns a locator exactly
when `rest` is nonempty.  On success the body is parsed (`none` for an empty
body); with a continuation and `fetch_all` true the recursive call's data is
concatenated (`data += ...` raises `TypeError` when either side is `None`),
with `fetch_all` false the current data and the locator are returned.  A
non-2xx status raises `PyrestoServerResponseException` whose message is
formatted from the status code alone. -/
def restCall {D : Type} (parser : String → List D) :
    Bool → Page → List Page → Except Err (Option (List D) × Option (Page × List Page))
  | _, p, [] =>
    if isSuccess p.status then
      .ok (if p.body = "" then none else some (parser p.body), none)
    else
      .error (.serverResponse p.status)
  | fetchAll, p, q :: rest' =>
    if isSuccess p.status then
      let data : Option (List D) := if p.body = "" then none else some (parser p.body)
      if fetchAll then
        match restCall parser true q rest' with
        | .error e => .error e
        | .ok (d2, _) =>
          match data, d2 with
          | some d, some d' => .ok (some (d ++ d'), none)
          | _, _ => .error .typeError
      else
        .ok (data, some (q, rest'))
    else
      .error (.serverResponse p.status)

/-- Embedding of `Model.delete` (core.py lines 387-392): one DELETE request via
`_rest_call`; returns `True`, or propagates the raised error on non-2xx. -/
def deleteM {D : Type} (parser : String → List D) (p : Page) (rest : List Page) :
    Except Err Bool :=
  match restCall parser true p rest with
  | .error e => .error e
  | .ok _ => .ok true

/-- Lookup in a Python dict modelled as an association list (first match). -/
def lookupA {V : Type} : List (String × V) → String → Option V
  | [], _ => none
  | kv :: rest, k => if kv.1 = k then some kv.2 else lookupA rest k

/-- Python `dict.update`: keys of `upd` override those of `old`, other keys of
`old` are preserved. -/
def dictUpdate {V : Type} (old upd : List (String × V)) : List (String × V) :=
  old.filter (fun kv => (lookupA upd kv.1).isNone) ++ upd

/-- One step of the overlap loop of `Model.__init__` / `Model.__fetch`:
`self.__dict__['__' + item] = self.__dict__.pop(item)`. -/
def popSet {V : Type} (dict : List (String × V)) (k : String) (v : V) :
    List (String × V) :=
  dictUpdate (dict.filter (fun kv => kv.1 ≠ k)) [("__" ++ k, v)]

/-- Merge of freshly received fields `d` into an attribute store, as done by
`Model.__init__` (core.py lines 166-173) and `Model.__fetch` (lines 286-293):
`self.__dict__.update(d)` followed by moving every key of `d` that collides
with a `Model`-valued class attribute (the declared relations, passed here as
`relNames`) under a `"__"` prefix. -/
def mergeAttrs {V : Type} (relNames : List String) (old d : List (String × V)) :
    List (String × V) :=
  (d.filter (fun kv => relNames.contains kv.1)).foldl
    (fun acc kv => popSet acc kv.1 kv.2)
    (dictUpdate old d)

/-- State of a `Model` instance.  `objId` models CPython object identity (the
key relation caches use), `cls` the inheritance chain of the concrete class
encoded root-first, `pkFields` the class-level `_pk` tuple, `attrs` the
public part of `__dict__`, and `pkValsRaw` the raw `__pk_vals` slot (`none`
models Python `None`, `some` a bound tuple). -/
structure MInst (V : Type) where
  objId : Nat
  cls : List Nat
  pkFields : List String
  attrs : List (String × V)
  fetched : Bool
  changed : Finset String
  pkValsRaw : Option (List V)
  auth : Option String
  deriving DecidableEq

/-- Embedding of `Model.__init__` (core.py lines 151-175): the keyword
arguments seed `__dict__` (with relation-name collisions renamed), `_changed`
starts empty, the instance is unfetched and its `__pk_vals` slot is `None`. -/
def mkModel {V : Type} (relNames : List String) (cl : List Nat) (pk : List String)
    (kwargs : List (String × V)) : MInst V :=
  { objId := 0, cls := cl, pkFields := pk,
    attrs := mergeAttrs relNames [] kwargs,
    fetched := false, changed := ∅, pkValsRaw := none, auth := none }

/-- Embedding of the `Model._id` property (core.py lines 177-183): if the raw
`__pk_vals` slot holds a truthy (nonempty) tuple its last component is the id,
otherwise the attribute named by the last `_pk` field is read off the local
store.  (The implicit-fetch path of that fallback `getattr`, and the
`IndexError` of an empty `_pk`, are outside the uses proved here.) -/
def idGet {V : Type} (m : MInst V) : Option V :=
  match m.pkValsRaw with
  | some (v :: vs) => (v :: vs).getLast?
  | _ =>
    match m.pkFields.getLast? with
    | some k => lookupA m.attrs k
    | none => none

/-- Embedding of the `Model._pk_vals` property getter (core.py lines 185-196):
it unconditionally recomputes `(None,) * (len(self._pk) - 1) + (self._id,)`,
overwriting whatever `read` had bound through the setter. -/
def pkValsGet {V : Type} (m : MInst V) : List (Option V) :=
  List.replicate (m.pkFields.length - 1) none ++ [idGet m]

/-- Values of the footprint dict: a primary-key value (possibly Python `None`)
or the reserved self-reference. -/
inductive FootVal (V : Type) where
  | prim (v : Option V)
  | selfRef
  deriving DecidableEq

/-- Embedding of the `Model._footprint` property (core.py lines 205-211):
`dict(zip(self._pk, self._pk_vals))` with the owning instance added under the
reserved key `self` (listed first so that lookup sees the final dict state). -/
def footprint {V : Type} (m : MInst V) : List (String × FootVal V) :=
  ("self", FootVal.selfRef) :: m.pkFields.zip ((pkValsGet m).map FootVal.prim)

/-- Embedding of `Model.read` (core.py lines 324-354): one GET through
`_rest_call`; a falsy (absent or empty) parsed body yields `None`; otherwise
an instance is constructed from the response fields, its `__pk_vals` bound to
the positional arguments (the setter raises `ValueError` on a length
mismatch), `_fetched` set and the credential recorded. -/
def readM {V : Type} (relNames : List String) (cl : List Nat) (pk : List String)
    (parser : String → List (String × V)) (auth : Option String)
    (p : Page) (rest : List Page) (args : List V) :
    Except Err (Option (MInst V)) :=
  match restCall parser true p rest with
  | .error e => .error e
  | .ok (data, _) =>
    let d := data.getD []
    if d.isEmpty then .ok none
    else if args.length = pk.length then
      .ok (some { mkModel relNames cl pk d with
                    pkValsRaw := some args, fetched := true, auth := auth })
    else .error .valueError

/-- Embedding of `Model.__fetch` (core.py lines 281-295): one GET through
`_rest_call` at the instance's current path; only when the parsed data is
truthy are the fields merged and `_fetched` set to `True`. -/
def fetchStep {V : Type} (relNames : List String)
    (parser : String → List (String × V)) (p : Page) (rest : List Page)
    (m : MInst V) : Except Err (MInst V) :=
  match restCall parser true p rest with
  | .error e => .error e
  | .ok (data, _) =>
    let d := data.getD []
    if d.isEmpty then .ok m
    else .ok { m with attrs := mergeAttrs relNames m.attrs d, fetched := true }

/-- Successive fetch responses: each entry is the page chain answering one GET
at the instance's current path. -/
abbrev Chain := Page × List Page

/-- Embedding of attribute lookup through `Model.__getattr__` (core.py lines
297-301) for a name that is not a class attribute: the local store is tried
first; on a miss with `_fetched` true an `AttributeError` is raised at once,
otherwise `__fetch` runs (consuming the next chain of `net`) and the lookup is
retried.  The fuel counts recursion depth: when the fetch leaves the data
falsy the Python code recurses without progress until the interpreter's
recursion limit, which fuel exhaustion models. -/
def getattrM {V : Type} (relNames : List String)
    (parser : String → List (String × V)) :
    Nat → List Chain → MInst V → String → Except Err (V × MInst V × List Chain)
  | 0, _, _, _ => .error .recursionLimit
  | fuel + 1, net, m, name =>
    match lookupA m.attrs name with
    | some v => .ok (v, m, net)
    | none =>
      if m.fetched then .error .attributeNotFound
      else
        match net with
        | [] => .error .noResponse
        | (p, rest) :: net' =>
          match fetchStep relNames parser p rest m with
          | .error e => .error e
          | .ok m' => getattrM relNames parser fuel net' m' name

/-- Key-set selection of `Model.update_with_patch` (core.py lines 359-363):
`if keys: keys &= instance._changed else: keys = instance._changed`.  Python
truthiness sends both an absent argument and an empty set into the `else`
branch. -/
def effKeys (keys : Option (Finset String)) (changed : Finset String) :
    Finset String :=
  match keys with
  | some ks => if ks.Nonempty then ks ∩ changed else changed
  | none => changed

/-- Embedding of `Model.update_with_patch` (core.py lines 356-372): the
payload is the restriction of `__dict__` to the selected keys (a selected key
absent from the store raises `KeyError` while the payload dict is built); on
success the parsed response is merged into the store and the selected keys
are removed from `_changed`.  Returns the payload sent and the new state. -/
def updateWithPatch {V : Type} (keys : Option (Finset String))
    (resp : List (String × V)) (m : MInst V) :
    Except Err (List (String × V) × MInst V) :=
  let ks := effKeys keys m.changed
  if ∀ k ∈ ks, (lookupA m.attrs k).isSome then
    .ok (m.attrs.filter (fun kv => decide (kv.1 ∈ ks)),
         { m with attrs := dictUpdate m.attrs resp, changed := m.changed \ ks })
  else .error .keyError

/-- Embedding of `Model.update_with_put` (core.py lines 374-385): the payload
is the whole store; on success the response is merged and `_changed` cleared. -/
def updateWithPut {V : Type} (resp : List (String × V)) (m : MInst V) :
    List (String × V) × MInst V :=
  (m.attrs, { m with attrs := dictUpdate m.attrs resp, changed := ∅ })

/-- Operations that mutate a `Model` instance after construction: attribute
assignment through `__setattr__`, a successful PATCH or PUT update, and the
merge performed by an implicit fetch (with the data the server returned). -/
inductive Op (V : Type) where
  | assign (key : String) (v : V)
  | patch (keys : Option (Finset String)) (resp : List (String × V))
  | put (resp : List (String × V))
  | fetchMerge (d : List (String × V))

/-- One mutation step.  `assign` embeds `Model.__setattr__` (core.py lines
303-306): a key that does not start with an underscore is added to `_changed`
before the value is stored (reserved keys are stored without dirty-tracking).
`patch` and `put` embed the successful update paths (a raised `KeyError`
leaves the instance unchanged, since the payload dict is built before any
mutation); `fetchMerge` embeds the truthiness-guarded merge of `__fetch`. -/
def stepOp {V : Type} (relNames : List String) : Op V → MInst V → MInst V
  | .assign k v, m =>
    { m with attrs := dictUpdate m.attrs [(k, v)],
             changed := if k.startsWith "_" then m.changed else insert k m.changed }
  | .patch keys resp, m =>
    match updateWithPatch keys resp m with
    | .ok (_, m') => m'
    | .error _ => m
  | .put resp, m => (updateWithPut resp m).2
  | .fetchMerge d, m =>
    if d.isEmpty then m
    else { m with attrs := mergeAttrs relNames m.attrs d, fetched := true }

/-- Life of an instance: constructed by `__init__` from keyword arguments,
then mutated by a sequence of operations. -/
def runOps {V : Type} (relNames : List String) (cl : List Nat) (pk : List String)
    (kwargs : List (String × V)) (ops : List (Op V)) : MInst V :=
  ops.foldl (fun m op => stepOp relNames op m) (mkModel relNames cl pk kwargs)

/-- Lookup in a cache keyed by object identity. -/
def lookupN {A : Type} : List (Nat × A) → Nat → Option A
  | [], _ => none
  | kv :: rest, k => if kv.1 = k then some kv.2 else lookupN rest k

/-- Result of resolving a `Many` relation: the wrapper object handed to the
caller.  `objId` models the identity of the allocated wrapper (`WrappedList`
or `LazyList`); for the eager case `items` is the sanitized page data. -/
structure Wrapper (D : Type) where
  objId : Nat
  isLazy : Bool
  items : List D
  deriving DecidableEq, Repr

/-- State of one `Many` descriptor: its per-owner cache (keyed by the owner's
object identity), a counter supplying fresh wrapper identities, and the count
of resolution calls made through `Model._rest_call`. -/
structure ManyState (D : Type) where
  cache : List (Nat × Wrapper D)
  nextId : Nat
  calls : Nat
  deriving DecidableEq, Repr

/-- Embedding of `Many.__sanitize_data` (relations.py lines 142-147): falsy
data becomes the empty list, otherwise the optional preprocessor is applied. -/
def sanitize {D : Type} (pre : Option (List D → List D)) :
    Option (List D) → List D
  | none => []
  | some [] => []
  | some (x :: xs) => (pre.getD id) (x :: xs)

/-- Embedding of `Many.__get__` (relations.py lines 178-199) for an instance
access: on a cache miss the relation path is formatted against the owner's
footprint and resolved — lazily by allocating a `LazyList` (no network call),
eagerly by one `Model._rest_call` with `fetch_all` true whose sanitized data
is wrapped in a fresh `WrappedList` — and the wrapper is stored in the
per-owner cache; on a hit the cached wrapper itself is returned. -/
def manyGet {D : Type} (lazy : Bool) (pre : Option (List D → List D))
    (parser : String → List D) (p : Page) (rest : List Page)
    (st : ManyState D) (owner : Nat) : Except Err (Wrapper D × ManyState D) :=
  match lookupN st.cache owner with
  | some w => .ok (w, st)
  | none =>
    if lazy then
      let w : Wrapper D := ⟨st.nextId, true, []⟩
      .ok (w, ⟨(owner, w) :: st.cache, st.nextId + 1, st.calls⟩)
    else
      match restCall parser true p rest with
      | .error e => .error e
      | .ok (data, _) =>
        let w : Wrapper D := ⟨st.nextId, false, sanitize pre data⟩
        .ok (w, ⟨(owner, w) :: st.cache, st.nextId + 1, st.calls + 1⟩)

/-- Attribute names defined on the class `Model` in core.py (data attributes,
classmethods — including the `update` alias the metaclass installs — and
properties; the parser/serializer hooks and dunder methods are elided).  The
method `Foreign.__get__` tries to call is `get`, which is *not* among them:
core.py names the fetch-by-key classmethod `read` (mcash.py line 111 even
defines `get` as an explicit alias for it on its own subclass). -/
def modelClassAttrNames : List String :=
  ["read", "update", "update_with_patch", "update_with_put", "delete",
   "_rest_call", "_get_sanitized_url", "_continuator",
   "_update_method", "_url_base", "_path", "_auth", "_pk", "_fetched",
   "_get_params"]

/-- Embedding of `Foreign.__get__` in embedded mode (relations.py lines
263-267): on a cache miss the sub-document stored on the owner under the key
property (`**` unpacking demands a mapping, `asDict` extracts it) is passed
to the target model's constructor, the owner's credential is copied onto the
new instance, and the instance is cached per owner. -/
def foreignGetEmbedded {V : Type} (relNames : List String)
    (asDict : V → Option (List (String × V))) (keyProp : String)
    (tCls : List Nat) (tPk : List String)
    (cache : List (Nat × MInst V)) (owner : MInst V) :
    Except Err (MInst V × List (Nat × MInst V)) :=
  match lookupN cache owner.objId with
  | some t => .ok (t, cache)
  | none =>
    match lookupA owner.attrs keyProp with
    | none => .error .attributeNotFound
    | some v =>
      match asDict v with
      | none => .error .typeError
      | some fields =>
        let t := { mkModel relNames tCls tPk fields with auth := owner.auth }
        .ok (t, (owner.objId, t) :: cache)

/-- Embedding of `Foreign.__get__` in referenced mode (relations.py lines
268-270): on a cache miss the code evaluates `self.__model.get(...)` — an
attribute lookup of `get` on the target model class — before any request
could be made.  When the class does not define `get` (core's `Model` does
not; it defines `read`) the lookup raises `AttributeError` and no network
call happens; had the method existed, one `read` with the extracted key and
the owner's credential would run (modelled by the guarded branch). -/
def foreignGetReferenced {V : Type} (relNames : List String) (tCls : List Nat)
    (tPk : List String) (parser : String → List (String × V))
    (net : List Chain) (cache : List (Nat × MInst V)) (owner : MInst V)
    (keys : List V) : Except Err (MInst V × List (Nat × MInst V) × List Chain) :=
  match lookupN cache owner.objId with
  | some t => .ok (t, cache, net)
  | none =>
    if modelClassAttrNames.contains "get" then
      match net with
      | [] => .error .noResponse
      | (p, rest) :: net' =>
        match readM relNames tCls tPk parser owner.auth p rest keys with
        | .error e => .error e
        | .ok none => .error .attributeNotFound
        | .ok (some t) => .ok (t, (owner.objId, t) :: cache, net')
    else .error .attributeNotFound

/-- Python `isinstance(other, cls)` on model instances, with a class encoded
as its inheritance chain root-first: `other` is an instance of `cls` exactly
when the chain of `cls` is an initial segment of the chain of `other`'s
class. -/
def chainLe : List Nat → List Nat → Bool
  | [], _ => true
  | _ :: _, [] => false
  | a :: as, b :: bs => a == b && chainLe as bs

/-- Embedding of `Model.__eq__` (core.py lines 312-313):
`isinstance(other, self.__class__) and self._id == other._id`. -/
def instanceEq {V : Type} [DecidableEq V] (a b : MInst V) : Bool :=
  chainLe a.cls b.cls && decide (idGet a = idGet b)

/-- C2: for every successful response sequence (all pages 2xx, all bodies
nonempty so each parses to a sequence), `_rest_call` with `fetch_all` true
returns the concatenation of every page's parsed data in server page order
with a null continuation, and with `fetch_all` false returns only the head
page's parsed data together with the locator of the next page (null when the
head page is the last). -/
theorem rest_call_pagination {D : Type} (parser : String → List D) (p : Page)
    (rest : List Page)
    (hok : ∀ q ∈ p :: rest, isSuccess q.status = true)
    (hbody : ∀ q ∈ p :: rest, q.body ≠ "") :
    restCall parser true p rest =
      .ok (some (((p :: rest).map (fun q => parser q.body)).flatten), none)
    ∧ restCall parser false p rest =
      .ok (some (parser p.body),
        match rest with
        | [] => none
        | q :: rest' => some (q, rest')) := by
  induction rest generalizing p with
  | nil =>
    have h1 := hok p (by simp)
    have h2 := hbody p (by simp)
    constructor <;> simp [restCall, h1, h2]
  | cons q rest' ih =>
    have h1 := hok p (by simp)
    have h2 := hbody p (by simp)
    have ihq := ih q (fun r hr => hok r (List.mem_cons_of_mem p hr))
      (fun r hr => hbody r (List.mem_cons_of_mem p hr))
    constructor
    · simp [restCall, h1, h2, ihq.1]
    · simp [restCall, h1, h2]

/-- Witness for `rest_call_pagination`: page 1 parses to `["a"]` with a
continuation to page 2, page 2 parses to `["b"]` with none; `fetch_all` true
yields the concatenation, `fetch_all` false yields page 1 plus the locator. -/
theorem rest_call_pagination_witness :
    restCall (fun s => [s]) true ⟨200, "a"⟩ [⟨200, "b"⟩] = .ok (some ["a", "b"], none)
    ∧ restCall (fun s => [s]) false ⟨200, "a"⟩ [⟨200, "b"⟩]
      = .ok (some ["a"], some (⟨200, "b"⟩, [])) := by
  have h := rest_call_pagination (fun s => [s]) ⟨200, "a"⟩ [⟨200, "b"⟩]
    (by decide) (by decide)
  simpa using h

/-- C6 counterexample: the exception raised on a non-2xx response is built from
the status code alone (`'Server response not OK. Response code: ...'`); the
body is only logged.  Two failing responses that differ solely in their body
raise identical exception values, so the exception cannot carry the body as
the claim states. -/
theorem server_response_error_drops_body :
    restCall (fun s => [s]) true ⟨404, "missing-A"⟩ [] = .error (.serverResponse 404)
    ∧ restCall (fun s => [s]) true ⟨404, "missing-B"⟩ [] = .error (.serverResponse 404)
    ∧ ("missing-A" : String) ≠ "missing-B" := by
  refine ⟨?_, ?_, by decide⟩ <;> simp [restCall, isSuccess]

/-- C6 amended: in either `fetch_all` mode, and for `delete`, a non-2xx status
makes the operation abort immediately by raising `ServerResponse` carrying the
status code (the body is logged but not carried), with no retry: the result
does not depend on the rest of the page chain. -/
theorem non_success_aborts_with_status {D : Type} (parser : String → List D)
    (fetchAll : Bool) (p : Page) (rest : List Page)
    (h : isSuccess p.status = false) :
    restCall parser fetchAll p rest = .error (.serverResponse p.status)
    ∧ deleteM parser p rest = .error (.serverResponse p.status) := by
  cases rest <;> constructor <;> simp [restCall, deleteM, h]

/-- Witness for `non_success_aborts_with_status` at a concrete failing
response with further pages available (which are never requested). -/
theorem non_success_aborts_with_status_witness :
    restCall (fun s => [s]) true ⟨500, "x"⟩ [⟨200, "y"⟩] = .error (.serverResponse 500)
    ∧ deleteM (fun s => [s]) ⟨500, "x"⟩ [⟨200, "y"⟩] = .error (.serverResponse 500) :=
  non_success_aborts_with_status (fun s => [s]) true ⟨500, "x"⟩ [⟨200, "y"⟩] (by decide)

/-- C1: accessing an attribute absent from the local store on an unfetched
instance performs exactly one fetch (the head chain of `net` is consumed, the
rest is untouched), merges the returned fields, sets `_fetched`, and retries
the lookup once — succeeding if the merge supplied the name and failing with
`AttributeError` otherwise; and on an instance whose `_fetched` flag is
already true a missing attribute fails immediately with `AttributeError`
independently of any available network responses.  (Scoped to fetches whose
body parses to truthy data; the falsy case is the subject of
`fetched_requires_truthy_data`.) -/
theorem getattr_miss_fetch_once {V : Type} (relNames : List String)
    (parser : String → List (String × V)) (fuel : Nat) (p : Page)
    (rest : List Page) (net' : List Chain) (m : MInst V) (name : String)
    (d : List (String × V)) (cu : Option (Page × List Page))
    (hmiss : lookupA m.attrs name = none)
    (hunf : m.fetched = false)
    (hresp : restCall parser true p rest = .ok (some d, cu))
    (hne : d ≠ [])
    (hfuel : 2 ≤ fuel) :
    (getattrM relNames parser fuel ((p, rest) :: net') m name =
      match lookupA (mergeAttrs relNames m.attrs d) name with
      | some v =>
        .ok (v, { m with attrs := mergeAttrs relNames m.attrs d, fetched := true }, net')
      | none => .error .attributeNotFound)
    ∧ (∀ (m' : MInst V) (fuel' : Nat) (net2 : List Chain),
        m'.fetched = true → lookupA m'.attrs name = none →
        getattrM relNames parser (fuel' + 1) net2 m' name = .error .attributeNotFound) := by
  constructor
  · obtain ⟨f, rfl⟩ : ∃ f, fuel = f + 2 := ⟨fuel - 2, by omega⟩
    have hd : d.isEmpty = false := by
      cases d with
      | nil => exact absurd rfl hne
      | cons a l => rfl
    simp only [getattrM, hmiss, hunf, fetchStep, hresp, Option.getD_some,
      Bool.false_eq_true, if_false, hd]
    cases h : lookupA (mergeAttrs relNames m.attrs d) name with
    | none => simp [getattrM, h]
    | some v => simp [getattrM, h]
  · intro m' fuel' net2 hf hm
    simp [getattrM, hm, hf]

/-- Witness for `getattr_miss_fetch_once`: an empty unfetched instance, one
successful response supplying the attribute `x`, leftover network untouched;
and the post-fetch immediate failure on a still-missing name. -/
theorem getattr_miss_fetch_once_witness :
    (getattrM [] (fun _ => [("x", "42")]) 2 [(⟨200, "b"⟩, [])]
        { objId := 0, cls := [0], pkFields := ["id"], attrs := [],
          fetched := false, changed := ∅, pkValsRaw := none, auth := none } "x"
      = .ok ("42",
          { objId := 0, cls := [0], pkFields := ["id"], attrs := [("x", "42")],
            fetched := true, changed := ∅, pkValsRaw := none, auth := none }, []))
    ∧ (getattrM [] (fun _ => [("x", "42")]) 1 []
        { objId := 1, cls := [0], pkFields := ["id"], attrs := [],
          fetched := true, changed := ∅, pkValsRaw := none, auth := none } "x"
      = .error .attributeNotFound) := by
  have h := getattr_miss_fetch_once (V := String) [] (fun _ => [("x", "42")]) 2
    ⟨200, "b"⟩ [] []
    { objId := 0, cls := [0], pkFields := ["id"], attrs := [],
      fetched := false, changed := ∅, pkValsRaw := none, auth := none }
    "x" [("x", "42")] none rfl rfl (by simp [restCall, isSuccess]) (by simp)
    (by omega)
  constructor
  · have h1 := h.1
    simpa [mergeAttrs, dictUpdate, popSet, lookupA] using h1
  · exact h.2 _ 0 [] rfl rfl

/-- C10: the `_fetched` flag is set only by a fetch whose body parses to
truthy data: an implicit fetch answered by a falsy body leaves the instance
exactly as it was (in particular unfetched), and `read` answered by a falsy
body returns `None` instead of an unfetched instance. -/
theorem fetched_requires_truthy_data {V : Type} (relNames : List String)
    (cl : List Nat) (pk : List String) (parser : String → List (String × V))
    (auth : Option String) (p : Page) (rest : List Page) (m : MInst V)
    (args : List V) (data : Option (List (String × V)))
    (cu : Option (Page × List Page))
    (hresp : restCall parser true p rest = .ok (data, cu))
    (hempty : data.getD [] = []) :
    fetchStep relNames parser p rest m = .ok m
    ∧ readM relNames cl pk parser auth p rest args = .ok none := by
  constructor <;> simp [fetchStep, readM, hresp, hempty]

/-- Witness for `fetched_requires_truthy_data`: a successful response with an
empty body (parsed data `None`) leaves the instance untouched and makes
`read` return `None`. -/
theorem fetched_requires_truthy_data_witness :
    fetchStep [] (fun _ => [("x", "1")]) ⟨200, ""⟩ []
      { objId := 0, cls := [0], pkFields := ["id"], attrs := [],
        fetched := false, changed := ∅, pkValsRaw := none, auth := none }
      = .ok { objId := 0, cls := [0], pkFields := ["id"], attrs := [],
              fetched := false, changed := ∅, pkValsRaw := none, auth := none }
    ∧ readM [] [0] ["id"] (fun _ => [("x", "1")]) none ⟨200, ""⟩ [] ["7"]
      = .ok none :=
  fetched_requires_truthy_data (V := String) [] [0] ["id"] (fun _ => [("x", "1")])
    none ⟨200, ""⟩ []
    { objId := 0, cls := [0], pkFields := ["id"], attrs := [],
      fetched := false, changed := ∅, pkValsRaw := none, auth := none }
    ["7"] none none (by simp [restCall, isSuccess]) rfl

/-- C8: the footprint of an instance whose composite primary key was bound by
`read` maps every non-final key field to Python `None`, not to the bound
value: the `_pk_vals` getter unconditionally recomputes
`(None,) * (len(pk) - 1) + (id,)`, discarding the tuple `read` stored through
the `_pk_vals` setter (whose length check, and the commented-out preserving
implementation next to the getter, show the binding was meant to survive).
Concretely: `_pk = (owner, id)`, `read("a", "b")` yields a footprint whose
`owner` entry is `None` rather than `"a"`. -/
theorem footprint_drops_bound_intermediate_key :
    readM [] [0] ["owner", "id"] (fun _ => [("name", "n")]) none ⟨200, "x"⟩ []
        ["a", "b"]
      = .ok (some { objId := 0, cls := [0], pkFields := ["owner", "id"],
                    attrs := [("name", "n")], fetched := true, changed := ∅,
                    pkValsRaw := some ["a", "b"], auth := none })
    ∧ footprint { objId := 0, cls := [0], pkFields := ["owner", "id"],
                  attrs := [("name", "n")], fetched := true, changed := ∅,
                  pkValsRaw := some ["a", "b"], auth := (none : Option String) }
      = [("self", .selfRef), ("owner", .prim none), ("id", .prim (some "b"))]
    ∧ lookupA
        (footprint { objId := 0, cls := [0], pkFields := ["owner", "id"],
                     attrs := [("name", "n")], fetched := true, changed := ∅,
                     pkValsRaw := some ["a", "b"],
                     auth := (none : Option String) })
        "owner" = some (.prim none)
    ∧ FootVal.prim (none : Option String) ≠ FootVal.prim (some "a") := by
  refine ⟨?_, ?_, ?_, by simp⟩
  · simp [readM, restCall, isSuccess, mkModel, mergeAttrs, dictUpdate, popSet]
  · simp [footprint, pkValsGet, idGet, List.getLast?]
  · simp [footprint, pkValsGet, idGet, lookupA, List.getLast?]

/-- C3 counterexample: with `_changed = set(["a"])` a caller-specified key set
that is empty is falsy, so the code sends the full changed set — the payload
is `[("a", "1")]` — whereas the claim's "intersection of the caller-specified
key set with the changed set" is empty, predicting an empty payload. -/
theorem patch_empty_keyset_counterexample :
    updateWithPatch (some (∅ : Finset String)) []
        { objId := 0, cls := [0], pkFields := ["id"], attrs := [("a", "1")],
          fetched := true, changed := {"a"}, pkValsRaw := none, auth := none }
      = .ok ([("a", "1")],
          { objId := 0, cls := [0], pkFields := ["id"], attrs := [("a", "1")],
            fetched := true, changed := ∅, pkValsRaw := none, auth := none })
    ∧ ((∅ : Finset String) ∩ ({"a"} : Finset String)) = ∅
    ∧ ([("a", "1")] : List (String × String)) ≠ [] := by
  refine ⟨?_, by simp, by simp⟩
  simp [updateWithPatch, effKeys, lookupA, dictUpdate]

/-- Lookup distributes over append, first list first. -/
theorem lookupA_append {V : Type} (l1 l2 : List (String × V)) (k : String) :
    lookupA (l1 ++ l2) k =
      match lookupA l1 k with
      | some v => some v
      | none => lookupA l2 k := by
  induction l1 with
  | nil => simp [lookupA]
  | cons kv rest ih =>
    by_cases hk : kv.1 = k
    · simp [lookupA, hk]
    · simp only [List.cons_append, lookupA, if_neg hk]
      exact ih

/-- Keys bound in `upd` are dropped by the filter `dictUpdate` applies. -/
theorem lookupA_filterSome {V : Type} (old upd : List (String × V)) (k : String)
    (h : (lookupA upd k).isSome) :
    lookupA (old.filter (fun kv => (lookupA upd kv.1).isNone)) k = none := by
  induction old with
  | nil => rfl
  | cons kv rest ih =>
    rw [List.filter_cons]
    by_cases hn : (lookupA upd kv.1).isNone = true
    · have hk : kv.1 ≠ k := by
        intro hkk
        rw [hkk, Option.isNone_iff_eq_none] at hn
        rw [hn] at h
        simp at h
      rw [if_pos hn, lookupA, if_neg hk]
      exact ih
    · rw [if_neg hn]
      exact ih

/-- Keys not bound in `upd` pass through the filter `dictUpdate` applies. -/
theorem lookupA_filterNone {V : Type} (old upd : List (String × V)) (k : String)
    (h : lookupA upd k = none) :
    lookupA (old.filter (fun kv => (lookupA upd kv.1).isNone)) k = lookupA old k := by
  induction old with
  | nil => rfl
  | cons kv rest ih =>
    rw [List.filter_cons]
    by_cases hk : kv.1 = k
    · have hn : (lookupA upd kv.1).isNone = true := by
        rw [hk, h]
        rfl
      rw [if_pos hn, lookupA, if_pos hk, lookupA, if_pos hk]
    · by_cases hn : (lookupA upd kv.1).isNone = true
      · rw [if_pos hn, lookupA, if_neg hk, lookupA, if_neg hk]
        exact ih
      · rw [if_neg hn, lookupA, if_neg hk]
        exact ih

/-- Lookup after a dict update: keys of the update win, others fall through. -/
theorem lookupA_dictUpdate {V : Type} (old upd : List (String × V)) (k : String) :
    lookupA (dictUpdate old upd) k =
      match lookupA upd k with
      | some v => some v
      | none => lookupA old k := by
  unfold dictUpdate
  rw [lookupA_append]
  cases h : lookupA upd k with
  | some v =>
    rw [lookupA_filterSome old upd k (by simp [h])]
  | none =>
    rw [lookupA_filterNone old upd k h]
    cases h2 : lookupA old k with
    | some w => simp
    | none => simp [h]

/-- Lookup in an association list finds a pair of the list. -/
theorem lookupA_mem {V : Type} {l : List (String × V)} {k : String} {v : V}
    (h : lookupA l k = some v) : (k, v) ∈ l := by
  induction l with
  | nil => simp [lookupA] at h
  | cons kv rest ih =>
    by_cases hk : kv.1 = k
    · rw [lookupA, if_pos hk] at h
      have hkv : kv = (k, v) := by
        obtain ⟨a, b⟩ := kv
        simp only at hk
        injection h with h2
        simp only at h2
        rw [hk, h2]
      rw [hkv]
      exact List.mem_cons_self _ _
    · rw [lookupA, if_neg hk] at h
      exact List.mem_cons_of_mem _ (ih h)

/-- C3 amended: the payload of a PATCH update contains exactly the keys
selected by `effKeys` — the intersection of a *nonempty* caller-specified key
set with the current changed set, and the full changed set when the key set
is absent *or empty* (Python truthiness) — with their current values; the
selected keys always lie inside the changed set (untouched keys are never
sent); and on success the response is merged into the store and exactly the
selected keys are removed from the changed set. -/
theorem patch_sends_changed_intersection {V : Type}
    (keys : Option (Finset String)) (resp : List (String × V)) (m : MInst V)
    (hpresent : ∀ k ∈ effKeys keys m.changed, (lookupA m.attrs k).isSome) :
    updateWithPatch keys resp m =
      .ok (m.attrs.filter (fun kv => decide (kv.1 ∈ effKeys keys m.changed)),
           { m with attrs := dictUpdate m.attrs resp,
                    changed := m.changed \ effKeys keys m.changed })
    ∧ effKeys keys m.changed ⊆ m.changed
    ∧ ((m.attrs.filter (fun kv => decide (kv.1 ∈ effKeys keys m.changed))).map
        Prod.fst).toFinset = effKeys keys m.changed := by
  refine ⟨?_, ?_, ?_⟩
  · simp only [updateWithPatch]
    rw [if_pos hpresent]
  · intro k hk
    unfold effKeys at hk
    cases keys with
    | none => exact hk
    | some ks =>
      by_cases hne : ks.Nonempty
      · simp only [hne, if_true] at hk
        exact Finset.mem_of_mem_inter_right hk
      · simpa [hne] using hk
  · apply Finset.ext
    intro k
    constructor
    · intro hk
      rcases List.mem_toFinset.mp hk with hk'
      rcases List.mem_map.mp hk' with ⟨kv, hkv, rfl⟩
      exact of_decide_eq_true (List.mem_filter.mp hkv).2
    · intro hk
      have hsome := hpresent k hk
      obtain ⟨v, hv⟩ := Option.isSome_iff_exists.mp hsome
      refine List.mem_toFinset.mpr (List.mem_map.mpr ⟨(k, v), ?_, rfl⟩)
      exact List.mem_filter.mpr ⟨lookupA_mem hv, by simpa using hk⟩

/-- Witness for `patch_sends_changed_intersection`: the caller restricts to
the nonempty set containing `a` and `c`; only `a` is in the changed set, so
only `a` is sent and removed from the changed set while `b` stays changed. -/
theorem patch_sends_changed_intersection_witness :
    updateWithPatch (some ({"a", "c"} : Finset String)) [("a", "2")]
        { objId := 0, cls := [0], pkFields := ["id"],
          attrs := [("a", "1"), ("b", "5")], fetched := true,
          changed := {"a", "b"}, pkValsRaw := none, auth := none }
      = .ok ([("a", "1")],
          { objId := 0, cls := [0], pkFields := ["id"],
            attrs := [("b", "5"), ("a", "2")], fetched := true,
            changed := {"b"}, pkValsRaw := none, auth := none })
    ∧ effKeys (some ({"a", "c"} : Finset String)) ({"a", "b"} : Finset String)
      ⊆ ({"a", "b"} : Finset String) := by
  have h := patch_sends_changed_intersection (V := String)
    (some ({"a", "c"} : Finset String)) [("a", "2")]
    { objId := 0, cls := [0], pkFields := ["id"],
      attrs := [("a", "1"), ("b", "5")], fetched := true,
      changed := {"a", "b"}, pkValsRaw := none, auth := none }
    (by decide)
  exact ⟨h.1.trans (congrArg Except.ok (by decide)), h.2.1⟩

/-- Each mutation step preserves the absence of reserved names in `_changed`. -/
theorem stepOp_preserves_no_reserved {V : Type} (relNames : List String)
    (op : Op V) (m : MInst V)
    (h : m.changed.filter (fun k => k.startsWith "_" = true) = ∅) :
    (stepOp relNames op m).changed.filter (fun k => k.startsWith "_" = true) = ∅ := by
  cases op with
  | assign k v =>
    simp only [stepOp]
    by_cases hk : k.startsWith "_" = true
    · rw [if_pos hk]
      exact h
    · rw [if_neg hk]
      rw [Finset.filter_insert, if_neg hk]
      exact h
  | patch keys resp =>
    simp only [stepOp]
    cases hp : updateWithPatch keys resp m with
    | error e => exact h
    | ok r =>
      obtain ⟨payload, m'⟩ := r
      have hm' : m'.changed = m.changed \ effKeys keys m.changed := by
        unfold updateWithPatch at hp
        by_cases hc : ∀ k ∈ effKeys keys m.changed, (lookupA m.attrs k).isSome
        · rw [if_pos hc] at hp
          injection hp with hp'
          injection hp' with hp1 hp2
          rw [← hp2]
        · rw [if_neg hc] at hp
          exact absurd hp (by simp)
      rw [Finset.eq_empty_iff_forall_not_mem]
      intro x hx
      rw [Finset.mem_filter] at hx
      have hx1 : x ∈ m.changed := by
        have := hx.1
        rw [hm'] at this
        exact (Finset.mem_sdiff.mp this).1
      have hmem : x ∈ m.changed.filter (fun k => k.startsWith "_" = true) :=
        Finset.mem_filter.mpr ⟨hx1, hx.2⟩
      rw [h] at hmem
      exact absurd hmem (Finset.not_mem_empty x)
  | put resp =>
    simp only [stepOp, updateWithPut]
    exact Finset.filter_empty _
  | fetchMerge d =>
    simp only [stepOp]
    by_cases hd : d.isEmpty
    · rw [if_pos hd]
      exact h
    · rw [if_neg hd]
      exact h

/-- C9: over every constructor seeding and every sequence of operations, the
`_changed` set never contains a reserved (underscore-prefixed) field name;
and one assignment step adds a non-reserved key to `_changed` (a reserved key
is not added) while storing the value in the attribute store. -/
theorem changed_never_reserved {V : Type} (relNames : List String)
    (cl : List Nat) (pk : List String) (kwargs : List (String × V))
    (ops : List (Op V)) (m : MInst V) (k : String) (v : V) :
    (runOps relNames cl pk kwargs ops).changed.filter
        (fun k => k.startsWith "_" = true) = ∅
    ∧ (stepOp relNames (.assign k v) m).changed
      = (if k.startsWith "_" then m.changed else insert k m.changed)
    ∧ lookupA (stepOp relNames (.assign k v) m).attrs k = some v := by
  refine ⟨?_, rfl, ?_⟩
  · unfold runOps
    have hbase : (mkModel relNames cl pk kwargs).changed.filter
        (fun k => k.startsWith "_" = true) = ∅ := by
      simp [mkModel]
    generalize mkModel relNames cl pk kwargs = m0 at hbase ⊢
    induction ops generalizing m0 with
    | nil => exact hbase
    | cons op rest ih =>
      exact ih _ (stepOp_preserves_no_reserved relNames op m0 hbase)
  · simp only [stepOp]
    rw [lookupA_dictUpdate]
    simp [lookupA]

/-- C4: once a `Many` relation has been resolved for an owner, a second access
on the same owner — even with entirely different responses available on the
network — returns the very same wrapper object (same identity, not merely
equal content) and leaves the descriptor state untouched, so resolution is
performed at most once per owner: the first access makes at most one
resolution call and the second makes none. -/
theorem many_get_memoized {D : Type} (lazy : Bool)
    (pre : Option (List D → List D)) (parser : String → List D)
    (p p2 : Page) (rest rest2 : List Page) (st st' : ManyState D)
    (owner : Nat) (w : Wrapper D)
    (h : manyGet lazy pre parser p rest st owner = .ok (w, st')) :
    manyGet lazy pre parser p2 rest2 st' owner = .ok (w, st')
    ∧ st'.calls ≤ st.calls + 1 := by
  unfold manyGet at h
  cases hc : lookupN st.cache owner with
  | some w0 =>
    rw [hc] at h
    injection h with h1
    obtain ⟨rfl, rfl⟩ : w0 = w ∧ st = st' := by
      constructor <;> [exact congrArg Prod.fst h1; exact congrArg Prod.snd h1]
    exact ⟨by simp [manyGet, hc], Nat.le_succ _⟩
  | none =>
    rw [hc] at h
    by_cases hl : lazy = true
    · subst hl
      simp only [if_true] at h
      injection h with h1
      obtain ⟨rfl, rfl⟩ : (⟨st.nextId, true, []⟩ : Wrapper D) = w
          ∧ (⟨(owner, ⟨st.nextId, true, []⟩) :: st.cache, st.nextId + 1,
              st.calls⟩ : ManyState D) = st' := by
        constructor <;> [exact congrArg Prod.fst h1; exact congrArg Prod.snd h1]
      refine ⟨?_, Nat.le_succ _⟩
      simp [manyGet, lookupN]
    · rw [Bool.not_eq_true] at hl
      subst hl
      simp only [Bool.false_eq_true, if_false] at h
      cases hrc : restCall parser true p rest with
      | error e =>
        rw [hrc] at h
        exact absurd h (by simp)
      | ok r =>
        rw [hrc] at h
        obtain ⟨data, cu⟩ := r
        injection h with h1
        obtain ⟨rfl, rfl⟩ : (⟨st.nextId, false, sanitize pre data⟩ : Wrapper D) = w
            ∧ (⟨(owner, ⟨st.nextId, false, sanitize pre data⟩) :: st.cache,
                st.nextId + 1, st.calls + 1⟩ : ManyState D) = st' := by
          constructor <;> [exact congrArg Prod.fst h1; exact congrArg Prod.snd h1]
        refine ⟨?_, Nat.le_refl _⟩
        simp [manyGet, lookupN]

/-- Witness for `many_get_memoized`: an eager relation resolved once for owner
`7`; the second access returns the identical wrapper without touching the
network trace offered to it. -/
theorem many_get_memoized_witness :
    manyGet false none (fun s => [s]) ⟨200, "d"⟩ [] ⟨[], 0, 0⟩ 7
      = .ok (⟨0, false, ["d"]⟩, ⟨[(7, ⟨0, false, ["d"]⟩)], 1, 1⟩)
    ∧ manyGet false none (fun s => [s]) ⟨500, "other"⟩ []
        ⟨[(7, ⟨0, false, ["d"]⟩)], 1, 1⟩ 7
      = .ok (⟨0, false, ["d"]⟩, ⟨[(7, ⟨0, false, ["d"]⟩)], 1, 1⟩) := by
  have hfirst : manyGet false none (fun s => [s]) ⟨200, "d"⟩ [] ⟨[], 0, 0⟩ 7
      = .ok (⟨0, false, ["d"]⟩, ⟨[(7, ⟨0, false, ["d"]⟩)], 1, 1⟩) := by
    simp [manyGet, lookupN, restCall, isSuccess, sanitize]
  have h := many_get_memoized false none (fun s => [s]) ⟨200, "d"⟩ ⟨500, "other"⟩
    [] [] ⟨[], 0, 0⟩ ⟨[(7, ⟨0, false, ["d"]⟩)], 1, 1⟩ 7 ⟨0, false, ["d"]⟩ hfirst
  exact ⟨hfirst, h.1⟩

/-- C5: a `Foreign` relation in embedded mode builds the target directly from
the inline sub-document with zero network calls and copies the owner's
credential onto it; but in referenced mode the claim fails on the code: the
classmethod it invokes is `get`, which `core.Model` does not define (the
operation is named `read`), so the access raises `AttributeError` before any
`read` call — even though responses are available on the network trace. -/
theorem foreign_embedded_ok_referenced_get_missing :
    foreignGetEmbedded [] (fun s => if s = "SUB" then some [("id", "9")] else none)
        "__target" [1] ["id"] []
        { objId := 3, cls := [0], pkFields := ["id"],
          attrs := [("__target", "SUB")], fetched := true, changed := ∅,
          pkValsRaw := some ["7"], auth := some "tok" }
      = .ok ({ objId := 0, cls := [1], pkFields := ["id"],
               attrs := [("id", "9")], fetched := false, changed := ∅,
               pkValsRaw := none, auth := some "tok" },
             [(3, { objId := 0, cls := [1], pkFields := ["id"],
                    attrs := [("id", "9")], fetched := false, changed := ∅,
                    pkValsRaw := none, auth := some "tok" })])
    ∧ foreignGetReferenced [] [1] ["id"] (fun _ => [("id", "9")])
        [(⟨200, "body"⟩, [])] []
        { objId := 3, cls := [0], pkFields := ["id"],
          attrs := [("__target", "SUB")], fetched := true, changed := ∅,
          pkValsRaw := some ["7"], auth := some "tok" } ["9"]
      = .error .attributeNotFound
    ∧ modelClassAttrNames.contains "get" = false
    ∧ modelClassAttrNames.contains "read" = true := by
  refine ⟨?_, ?_, by decide, by decide⟩
  · simp [foreignGetEmbedded, lookupN, lookupA, mkModel, mergeAttrs, dictUpdate]
  · simp [foreignGetReferenced, lookupN, modelClassAttrNames]

/-- Initial segments are reflexive: every class is an instance of itself. -/
theorem chainLe_refl (c : List Nat) : chainLe c c = true := by
  induction c with
  | nil => rfl
  | cons a as ih => simp [chainLe, ih]

/-- C7 counterexample: an instance of a concrete model class (chain `[0]`) and
an instance of a strict subclass of it (chain `[0, 1]`) with the same final
key compare equal through `isinstance(other, self.__class__)`, although their
concrete resource types differ — refuting "equal iff the same concrete
resource type and the final key matches". -/
theorem eq_subclass_counterexample :
    instanceEq
      { objId := 0, cls := [0], pkFields := ["id"], attrs := [],
        fetched := true, changed := ∅, pkValsRaw := some ["5"],
        auth := (none : Option String) }
      { objId := 1, cls := [0, 1], pkFields := ["id"], attrs := [],
        fetched := true, changed := ∅, pkValsRaw := some ["5"], auth := none }
      = true
    ∧ ([0] : List Nat) ≠ [0, 1] := by
  constructor
  · simp [instanceEq, chainLe, idGet]
  · simp

/-- Inverting a successful `read`: the instance carries the bound key tuple
and the class it was invoked on. -/
theorem readM_ok_some {V : Type} {relNames : List String} {cl : List Nat}
    {pk : List String} {parser : String → List (String × V)}
    {auth : Option String} {p : Page} {rest : List Page} {args : List V}
    {m : MInst V}
    (h : readM relNames cl pk parser auth p rest args = .ok (some m)) :
    m.pkValsRaw = some args ∧ m.cls = cl := by
  unfold readM at h
  split at h
  · exact absurd h (by simp)
  · dsimp only at h
    split at h
    · exact absurd h (by simp)
    · split at h
      · injection h with h1
        injection h1 with h2
        rw [← h2]
        exact ⟨rfl, rfl⟩
      · exact absurd h (by simp)

/-- C7 amended: `Model.__eq__` is `isinstance`-based, so between instances of
the *same* concrete class it is exactly "final primary-key components match"
(intermediate key segments are not compared: `_id` is the last component
only); and reading the same primary key twice on the same class — whatever
the two successful responses contain — yields instances that compare equal.
Across a class and a strict subclass, however, equality can hold although the
concrete types differ (see the counterexample). -/
theorem eq_same_class_iff_last_key {V : Type} [DecidableEq V]
    (a b : MInst V) (hcls : a.cls = b.cls) :
    (instanceEq a b = true ↔ idGet a = idGet b)
    ∧ (∀ (relNames : List String) (pk : List String)
        (parser1 parser2 : String → List (String × V))
        (auth1 auth2 : Option String) (p1 p2 : Page) (r1 r2 : List Page)
        (x : V) (xs : List V) (m1 m2 : MInst V),
        readM relNames a.cls pk parser1 auth1 p1 r1 (x :: xs) = .ok (some m1) →
        readM relNames a.cls pk parser2 auth2 p2 r2 (x :: xs) = .ok (some m2) →
        instanceEq m1 m2 = true) := by
  constructor
  · unfold instanceEq
    rw [hcls, chainLe_refl]
    constructor
    · intro h
      rw [Bool.true_and] at h
      exact of_decide_eq_true h
    · intro h
      rw [Bool.true_and]
      exact decide_eq_true h
  · intro relNames pk parser1 parser2 auth1 auth2 p1 p2 r1 r2 x xs m1 m2 h1 h2
    obtain ⟨hpk1, hc1⟩ := readM_ok_some h1
    obtain ⟨hpk2, hc2⟩ := readM_ok_some h2
    unfold instanceEq
    rw [hc1, hc2, chainLe_refl, Bool.true_and]
    apply decide_eq_true
    unfold idGet
    rw [hpk1, hpk2]

/-- Witness for `eq_same_class_iff_last_key`: two same-class instances whose
terminal keys agree, and two `read`s of key `5` against different response
bodies producing equal instances. -/
theorem eq_same_class_iff_last_key_witness :
    (instanceEq
        { objId := 0, cls := [0], pkFields := ["id"], attrs := [],
          fetched := true, changed := ∅, pkValsRaw := some ["5"],
          auth := (none : Option String) }
        { objId := 1, cls := [0], pkFields := ["id"], attrs := [],
          fetched := true, changed := ∅, pkValsRaw := some ["5"], auth := none }
      = true
      ↔ idGet
        { objId := 0, cls := [0], pkFields := ["id"], attrs := [],
          fetched := true, changed := ∅, pkValsRaw := some ["5"],
          auth := (none : Option String) }
      = idGet
        { objId := 1, cls := [0], pkFields := ["id"], attrs := [],
          fetched := true, changed := ∅, pkValsRaw := some ["5"], auth := none })
    ∧ instanceEq
        { objId := 0, cls := [0], pkFields := ["id"],
          attrs := [("name", "n1")], fetched := true, changed := ∅,
          pkValsRaw := some ["5"], auth := (none : Option String) }
        { objId := 0, cls := [0], pkFields := ["id"],
          attrs := [("name", "n2")], fetched := true, changed := ∅,
          pkValsRaw := some ["5"], auth := none }
      = true := by
  have h := eq_same_class_iff_last_key (V := String)
    { objId := 0, cls := [0], pkFields := ["id"], attrs := [],
      fetched := true, changed := ∅, pkValsRaw := some ["5"], auth := none }
    { objId := 1, cls := [0], pkFields := ["id"], attrs := [],
      fetched := true, changed := ∅, pkValsRaw := some ["5"], auth := none }
    rfl
  refine ⟨h.1, ?_⟩
  refine h.2 [] ["id"] (fun _ => [("name", "n1")]) (fun _ => [("name", "n2")])
    none none ⟨200, "b1"⟩ ⟨200, "b2"⟩ [] [] "5" [] _ _ ?_ ?_
  · simp [readM, restCall, isSuccess, mkModel, mergeAttrs, dictUpdate, popSet]
  · simp [readM, restCall, isSuccess, mkModel, mergeAttrs, dictUpdate, popSet]

end Pyresto
